import Mathlib

/-!
Verification of the refacekit-local CSV ingestion / VICIdial export pipeline.

Shallow embedding of `ops/apps/api/main.py` and `ops/apps/worker/worker.py`:

* a parsed CSV table (`pandas.DataFrame`) is a list of column names plus a
  list of rows; a cell is `Option String`, `none` standing for a missing
  value (pandas `NaN`);
* the Python string operations used by the code (`str.lower`, `str.strip`,
  `re.sub(r'\D', '', s)`, decimal `repr` of ints, `json.dumps`/`json.loads`
  of the job payload, `csv` serialization) are modelled character-for
  -character over `List Char` (ASCII case folding);
* the Redis list used as the job queue is a `List String`, with `lpush`
  adding at the head and `brpop` taking from the tail (FIFO);
* the HTTP endpoint and the worker loop are modelled as pure functions from
  the request data / the trace of poll outcomes to the reply and the list of
  payloads pushed onto the queue.
-/

/-- One table cell: `some s` is a string value, `none` models pandas `NaN`
(a missing value in the parsed CSV). -/
abbrev Cell := Option String

/-- A parsed tabular input (`pandas.DataFrame`): column names in order plus
rows, each row a list of cells aligned positionally with the columns. -/
structure DataFrame where
  columns : List String
  rows : List (List Cell)
deriving DecidableEq, Repr

/-- Index of the first column with the given name, `'name' in df.columns` /
column selection both go through this. -/
def colIdx : List String → String → Option Nat
  | [], _ => none
  | c :: cs, n => if c = n then some 0 else (colIdx cs n).map (· + 1)

/-! ## Python string primitives -/

/-- ASCII case folding of one character, as `str.lower` acts on the ASCII
range (the repository's header names and alias table are ASCII). -/
def lowerChar (c : Char) : Char :=
  if 65 ≤ c.toNat ∧ c.toNat ≤ 90 then Char.ofNat (c.toNat + 32) else c

/-- Python `str.lower()`. -/
def pyLower (s : String) : String := ⟨s.data.map lowerChar⟩

/-- The characters stripped by Python `str.strip()` with no argument
(Unicode whitespace, `Py_UNICODE_ISSPACE`). -/
def pySpace (c : Char) : Bool :=
  let n := c.toNat
  (9 ≤ n ∧ n ≤ 13) ∨ (28 ≤ n ∧ n ≤ 32) ∨ n = 133 ∨ n = 160 ∨ n = 5760 ∨
    (8192 ≤ n ∧ n ≤ 8202) ∨ n = 8232 ∨ n = 8233 ∨ n = 8239 ∨ n = 8287 ∨ n = 12288

/-- Drop leading and trailing whitespace from a character list. -/
def stripList (l : List Char) : List Char :=
  ((l.dropWhile pySpace).reverse.dropWhile pySpace).reverse

/-- Python `str.strip()`. -/
def pyStrip (s : String) : String := ⟨stripList s.data⟩

/-! ## Phone Normalizer (`normalize_phone_number`, main.py lines 68-84) -/

/-- `normalize_phone_number`: `None`/empty input is rejected; all non-digit
characters are removed (`re.sub(r'\D', '', str(phone))`); fewer than 10
digits is rejected (`None`); more than 10 keeps the last 10; exactly 10 is
returned as-is. -/
def normalize_phone_number (phone : Cell) : Option String :=
  match phone with
  | none => none
  | some s =>
    if s = "" then none
    else
      let digits_only := s.data.filter Char.isDigit
      if digits_only.length < 10 then none
      else if digits_only.length > 10 then
        some ⟨digits_only.drop (digits_only.length - 10)⟩
      else some ⟨digits_only⟩

/-- Characters surviving the digit filter are digits. -/
theorem mem_filter_isDigit {l : List Char} {c : Char}
    (h : c ∈ l.filter Char.isDigit) : c.isDigit = true :=
  (List.mem_filter.mp h).2

/-- C1: the Phone Normalizer returns either `none` or a string of exactly 10
digits; writing `d` for the digits of the input string: fewer than 10 digits
give `none`, more than 10 give the last 10 digits, exactly 10 give the digit
string unchanged, and a pure digit string of length 10 is returned equal to
the input. -/
theorem phone_normalizer_spec (phone : Cell) :
    (normalize_phone_number phone = none ∨
      ∃ t, normalize_phone_number phone = some t ∧ t.length = 10 ∧
        ∀ c ∈ t.data, c.isDigit = true) ∧
    (∀ s : String, phone = some s →
      ((s.data.filter Char.isDigit).length < 10 → normalize_phone_number phone = none) ∧
      ((s.data.filter Char.isDigit).length > 10 → normalize_phone_number phone =
        some ⟨(s.data.filter Char.isDigit).drop ((s.data.filter Char.isDigit).length - 10)⟩) ∧
      ((s.data.filter Char.isDigit).length = 10 → normalize_phone_number phone =
        some ⟨s.data.filter Char.isDigit⟩) ∧
      ((∀ c ∈ s.data, c.isDigit = true) → s.length = 10 →
        normalize_phone_number phone = some s)) := by
  constructor
  · match phone with
    | none => exact Or.inl rfl
    | some s =>
      by_cases hs : s = ""
      · exact Or.inl (by simp [normalize_phone_number, hs])
      · set d := s.data.filter Char.isDigit with hd
        by_cases h10 : d.length < 10
        · exact Or.inl (by simp [normalize_phone_number, hs, ← hd, h10])
        · by_cases hgt : d.length > 10
          · refine Or.inr ⟨⟨d.drop (d.length - 10)⟩, ?_, ?_, ?_⟩
            · simp [normalize_phone_number, hs, ← hd, h10, hgt]
            · show (d.drop (d.length - 10)).length = 10
              rw [List.length_drop]
              omega
            · intro c hc
              exact mem_filter_isDigit (List.mem_of_mem_drop hc)
          · refine Or.inr ⟨⟨d⟩, ?_, ?_, ?_⟩
            · simp [normalize_phone_number, hs, ← hd, h10, hgt]
            · show d.length = 10
              omega
            · intro c hc
              exact mem_filter_isDigit hc
  · intro s hps
    subst hps
    by_cases hs : s = ""
    · subst hs
      refine ⟨fun _ => rfl, ?_, ?_, ?_⟩ <;> intro h <;> simp_all
    · set d := s.data.filter Char.isDigit with hd
      refine ⟨?_, ?_, ?_, ?_⟩
      · intro h
        simp [normalize_phone_number, hs, ← hd, h]
      · intro h
        simp [normalize_phone_number, hs, ← hd, h, Nat.not_lt.mpr (Nat.le_of_lt h)]
      · intro h
        simp [normalize_phone_number, hs, ← hd, h]
      · intro hdig hlen
        have hfe : s.data.filter Char.isDigit = s.data := List.filter_eq_self.mpr hdig
        have hlen' : s.data.length = 10 := hlen
        have h1 : ¬ d.length < 10 := by rw [hd, hfe]; omega
        have h2 : ¬ d.length > 10 := by rw [hd, hfe]; omega
        have : normalize_phone_number (some s) = some ⟨d⟩ := by
          simp [normalize_phone_number, hs, ← hd, h1, h2]
        rw [this, hd, hfe]

/-- Witness for C1 at a concrete formatted phone number. -/
theorem phone_normalizer_spec_witness :
    ((some "(555) 123-4567" : Cell) = some "(555) 123-4567") ∧
    (normalize_phone_number (some "(555) 123-4567") = none ∨
      ∃ t, normalize_phone_number (some "(555) 123-4567") = some t ∧ t.length = 10 ∧
        ∀ c ∈ t.data, c.isDigit = true) :=
  ⟨rfl, (phone_normalizer_spec (some "(555) 123-4567")).1⟩

/-! ## Header Normalizer (`normalize_csv_headers`, main.py lines 86-101) -/

/-- The fixed alias table `header_mapping` from the source. -/
def header_mapping : List (String × String) := [
  ("firstname", "first_name"), ("fname", "first_name"), ("first", "first_name"),
  ("lastname", "last_name"), ("lname", "last_name"), ("last", "last_name"),
  ("phone", "phone_number"), ("telephone", "phone_number"), ("mobile", "phone_number"),
  ("address", "address1"), ("street", "address1"), ("addr1", "address1"),
  ("zip", "postal_code"), ("zipcode", "postal_code"), ("zip_code", "postal_code")]

/-- What `normalize_csv_headers` does to one column name: lower-case, strip,
then rewrite through the alias table (`df.rename(columns=header_mapping)`),
leaving unmapped names unchanged. -/
def normalize_header (h : String) : String :=
  let k := pyStrip (pyLower h)
  match header_mapping.lookup k with
  | some v => v
  | none => k

/-- `normalize_csv_headers`: rewrite all column names; rows are untouched. -/
def normalize_csv_headers (df : DataFrame) : DataFrame :=
  { df with columns := df.columns.map normalize_header }

/-- `Char.ofNat` on a number below the surrogate range reads back as itself. -/
theorem toNat_ofNat_valid {n : Nat} (h : n < 0xd800) : (Char.ofNat n).toNat = n := by
  rw [Char.ofNat, dif_pos (Or.inl h)]
  rfl

/-- ASCII lowering is idempotent. -/
theorem lowerChar_idem (c : Char) : lowerChar (lowerChar c) = lowerChar c := by
  unfold lowerChar
  by_cases h : 65 ≤ c.toNat ∧ c.toNat ≤ 90
  · rw [if_pos h]
    have ht : (Char.ofNat (c.toNat + 32)).toNat = c.toNat + 32 :=
      toNat_ofNat_valid (by omega)
    rw [if_neg (by rw [ht]; omega)]
  · rw [if_neg h, if_neg h]

/-- ASCII lowering does not change whether a character is Python whitespace. -/
theorem pySpace_lowerChar (c : Char) : pySpace (lowerChar c) = pySpace c := by
  unfold lowerChar
  by_cases h : 65 ≤ c.toNat ∧ c.toNat ≤ 90
  · rw [if_pos h]
    have ht : (Char.ofNat (c.toNat + 32)).toNat = c.toNat + 32 :=
      toNat_ofNat_valid (by omega)
    unfold pySpace
    rw [decide_eq_decide, ht]
    omega
  · rw [if_neg h]

/-- Dropping a prefix of satisfying elements twice is dropping it once. -/
theorem dropWhile_idem (p : α → Bool) (l : List α) :
    (l.dropWhile p).dropWhile p = l.dropWhile p := by
  induction l with
  | nil => rfl
  | cons a t ih =>
    by_cases h : p a
    · simp [List.dropWhile_cons, h, ih]
    · simp [List.dropWhile_cons, h]

/-- A prefix of a list that `dropWhile` leaves alone is also left alone. -/
theorem dropWhile_eq_self_of_prefix {p : α → Bool} {x y : List α}
    (hx : x.dropWhile p = x) (hp : y <+: x) : y.dropWhile p = y := by
  cases y with
  | nil => rfl
  | cons a t =>
    obtain ⟨s, hs⟩ := hp
    have hpa : p a = false := by
      by_contra hcon
      have hpa' : p a = true := by
        cases hpab : p a
        · exact absurd hpab hcon
        · rfl
      rw [← hs, List.cons_append, List.dropWhile_cons, if_pos hpa'] at hx
      have hlen := congrArg List.length hx
      have hle : ((t ++ s).dropWhile p).length ≤ (t ++ s).length :=
        List.Sublist.length_le (List.dropWhile_sublist p)
      rw [List.length_cons] at hlen
      omega
    simp [List.dropWhile_cons, hpa]

/-- The stripped list is a prefix of the left-stripped list. -/
theorem stripList_prefix_dropWhile (l : List Char) :
    stripList l <+: l.dropWhile pySpace := by
  unfold stripList
  have h : ((l.dropWhile pySpace).reverse.dropWhile pySpace) <:+
      (l.dropWhile pySpace).reverse := List.dropWhile_suffix _
  have h2 : ((l.dropWhile pySpace).reverse.dropWhile pySpace).reverse <+:
      ((l.dropWhile pySpace).reverse).reverse := List.reverse_prefix.mpr h
  simpa using h2

/-- Stripping is idempotent. -/
theorem stripList_idem (l : List Char) : stripList (stripList l) = stripList l := by
  have h1 : (stripList l).dropWhile pySpace = stripList l :=
    dropWhile_eq_self_of_prefix (dropWhile_idem _ _) (stripList_prefix_dropWhile l)
  show (((stripList l).dropWhile pySpace).reverse.dropWhile pySpace).reverse = stripList l
  rw [h1]
  unfold stripList
  rw [List.reverse_reverse, dropWhile_idem]

/-- Lowering twice equals lowering once, on character lists. -/
theorem map_lowerChar_idem (l : List Char) :
    (l.map lowerChar).map lowerChar = l.map lowerChar := by
  rw [List.map_map]
  exact List.map_congr_left (fun a _ => lowerChar_idem a)

/-- Stripping commutes with lowering. -/
theorem stripList_map_lowerChar (l : List Char) :
    stripList (l.map lowerChar) = (stripList l).map lowerChar := by
  have hpf : (pySpace ∘ lowerChar) = pySpace := funext pySpace_lowerChar
  unfold stripList
  rw [List.dropWhile_map, hpf, ← List.map_reverse, List.dropWhile_map, hpf,
    ← List.map_reverse]

/-- The lower-then-strip canonicalization is idempotent, on strings. -/
theorem pyStrip_pyLower_idem (s : String) :
    pyStrip (pyLower (pyStrip (pyLower s))) = pyStrip (pyLower s) := by
  show (⟨stripList ((stripList (s.data.map lowerChar)).map lowerChar)⟩ : String) =
    ⟨stripList (s.data.map lowerChar)⟩
  rw [← stripList_map_lowerChar, map_lowerChar_idem, stripList_idem]

/-- A successful alias-table lookup returns one of the table's values. -/
theorem lookup_mem_values [BEq α] {l : List (α × β)} {a : α} {b : β}
    (h : l.lookup a = some b) : b ∈ l.map Prod.snd := by
  induction l with
  | nil => cases h
  | cons p t ih =>
    obtain ⟨k, v⟩ := p
    rw [List.lookup] at h
    cases hak : a == k with
    | true => rw [hak] at h; cases h; exact List.mem_map.mpr ⟨(k, b), List.mem_cons_self _ _, rfl⟩
    | false =>
      rw [hak] at h
      exact List.mem_cons_of_mem _ (ih h)

/-- Every value of the alias table is already canonical: lowering and
stripping leave it unchanged and it is not itself an alias key. -/
theorem header_mapping_values_fixed :
    ∀ p ∈ header_mapping, pyStrip (pyLower p.2) = p.2 ∧
      header_mapping.lookup p.2 = none := by decide

/-- One application of the header rewrite is a fixed point of a second one. -/
theorem normalize_header_idem (h : String) :
    normalize_header (normalize_header h) = normalize_header h := by
  unfold normalize_header
  cases hl : header_mapping.lookup (pyStrip (pyLower h)) with
  | none =>
    simp only [pyStrip_pyLower_idem, hl]
  | some v =>
    have hv : v ∈ header_mapping.map Prod.snd := lookup_mem_values hl
    obtain ⟨p, hp, hpv⟩ := List.mem_map.mp hv
    obtain ⟨h1, h2⟩ := header_mapping_values_fixed p hp
    rw [hpv] at h1 h2
    simp only [hl, h1, h2]

/-- C9: the Header Normalizer is idempotent: lower-casing, trimming and
rewriting through the fixed alias table a second time changes nothing. -/
theorem header_normalizer_idempotent (df : DataFrame) :
    normalize_csv_headers (normalize_csv_headers df) = normalize_csv_headers df := by
  unfold normalize_csv_headers
  simp only [List.map_map]
  congr 1
  exact List.map_congr_left (fun a _ => normalize_header_idem a)

/-! ## Ingestion Pipeline (`ingest_csv` cleaning steps, main.py lines 156-174) -/

/-- pandas column assignment `df[name] = <series computed from df>`:
overwrite the column in place when it exists, else append it on the right.
The assigned series is aligned with the frame row by row, so the new cell is
a function of the row. -/
def assignCol (df : DataFrame) (name : String) (f : List Cell → Cell) : DataFrame :=
  match colIdx df.columns name with
  | some j => { df with rows := df.rows.map (fun r => r.set j (f r)) }
  | none => { columns := df.columns ++ [name], rows := df.rows.map (fun r => r ++ [f r]) }

/-- `df.dropna(subset=[name])`: drop every row whose cell in that column is
`NaN`. -/
def dropnaOn (df : DataFrame) (name : String) : DataFrame :=
  match colIdx df.columns name with
  | some j => { df with rows := df.rows.filter (fun r => (r.getD j none).isSome) }
  | none => df

/-- Keep-first deduplication by key, accumulating the keys already seen. -/
def dedupFirstAux {α β : Type} [DecidableEq β] (key : α → β) (seen : List β) :
    List α → List α
  | [] => []
  | r :: rs =>
    if key r ∈ seen then dedupFirstAux key seen rs
    else r :: dedupFirstAux key (key r :: seen) rs

/-- `df.drop_duplicates(subset=[name])`: keep the first row for each value of
the column (pandas keep='first' default). -/
def drop_duplicates (df : DataFrame) (name : String) : DataFrame :=
  match colIdx df.columns name with
  | some j => { df with rows := dedupFirstAux (fun r => r.getD j none) [] df.rows }
  | none => df

/-- The derived-column assignment of main.py line 160:
`df['phone_number_normalized'] = df['phone_number'].apply(normalize_phone_number)`,
with `i` the position of the `phone_number` column. -/
def withNormalizedCol (df : DataFrame) (i : Nat) : DataFrame :=
  assignCol df "phone_number_normalized" (fun r => normalize_phone_number (r.getD i none))

/-- The cleaning steps of `ingest_csv` between parsing and serialization:
normalize headers; if a `phone_number` column exists, derive
`phone_number_normalized` and drop rows where it is `NaN`; if a
`phone_number_normalized` column exists, deduplicate on it. -/
def processDf (df0 : DataFrame) : DataFrame :=
  let df1 := normalize_csv_headers df0
  let df2 := match colIdx df1.columns "phone_number" with
    | some i => dropnaOn (withNormalizedCol df1 i) "phone_number_normalized"
    | none => df1
  match colIdx df2.columns "phone_number_normalized" with
  | some _ => drop_duplicates df2 "phone_number_normalized"
  | none => df2

/-- Appending a fresh column name puts it at position `length`. -/
theorem colIdx_append_self {cs : List String} {n : String} (h : colIdx cs n = none) :
    colIdx (cs ++ [n]) n = some cs.length := by
  induction cs with
  | nil => simp [colIdx]
  | cons c t ih =>
    by_cases hc : c = n
    · rw [colIdx, if_pos hc] at h
      simp at h
    · rw [colIdx, if_neg hc] at h
      have ht : colIdx t n = none := by
        cases hcc : colIdx t n with
        | none => rfl
        | some k => rw [hcc] at h; simp at h
      rw [List.cons_append, colIdx, if_neg hc, ih ht]
      simp

/-- The deduplicated rows are a subsequence of the input rows. -/
theorem dedupFirstAux_sublist {α β : Type} [DecidableEq β] (key : α → β)
    (seen : List β) (l : List α) : List.Sublist (dedupFirstAux key seen l) l := by
  induction l generalizing seen with
  | nil => simp [dedupFirstAux]
  | cons x xs ih =>
    simp only [dedupFirstAux]
    by_cases h : key x ∈ seen
    · rw [if_pos h]; exact (ih seen).cons x
    · rw [if_neg h]; exact (ih _).cons₂ x

/-- No kept row carries a key that was already seen. -/
theorem mem_dedupFirstAux {α β : Type} [DecidableEq β] {key : α → β}
    {seen : List β} {l : List α} {r : α}
    (h : r ∈ dedupFirstAux key seen l) : key r ∉ seen := by
  induction l generalizing seen with
  | nil => simp [dedupFirstAux] at h
  | cons x xs ih =>
    simp only [dedupFirstAux] at h
    by_cases hx : key x ∈ seen
    · rw [if_pos hx] at h; exact ih h
    · rw [if_neg hx] at h
      rcases List.mem_cons.mp h with h1 | h2
      · subst h1; exact hx
      · intro hc
        exact (ih h2) (List.mem_cons_of_mem _ hc)

/-- The kept rows have pairwise distinct keys. -/
theorem dedupFirstAux_pairwise {α β : Type} [DecidableEq β] (key : α → β)
    (seen : List β) (l : List α) :
    (dedupFirstAux key seen l).Pairwise (fun a b => key a ≠ key b) := by
  induction l generalizing seen with
  | nil => simp [dedupFirstAux]
  | cons x xs ih =>
    simp only [dedupFirstAux]
    by_cases hx : key x ∈ seen
    · rw [if_pos hx]; exact ih seen
    · rw [if_neg hx]
      refine List.Pairwise.cons ?_ (ih _)
      intro b hb hc
      exact (mem_dedupFirstAux hb) (by rw [← hc]; exact List.mem_cons_self _ _)

/-- For every input row whose key is unseen, the first input row with the
same key is among the kept rows. -/
theorem dedupFirstAux_first_mem {α β : Type} [DecidableEq β] (key : α → β)
    (seen : List β) (l : List α) (r : α) (hr : r ∈ l) (hseen : key r ∉ seen) :
    ∃ r', l.find? (fun x => decide (key x = key r)) = some r' ∧
      r' ∈ dedupFirstAux key seen l := by
  induction l generalizing seen with
  | nil => cases hr
  | cons x xs ih =>
    by_cases hxr : key x = key r
    · refine ⟨x, List.find?_cons_of_pos _ (by simp [hxr]), ?_⟩
      simp only [dedupFirstAux]
      rw [if_neg (by rw [hxr]; exact hseen)]
      exact List.mem_cons_self _ _
    · have hr' : r ∈ xs := by
        rcases List.mem_cons.mp hr with h1 | h2
        · exact absurd (by rw [h1] : key x = key r) hxr
        · exact h2
      simp only [dedupFirstAux]
      by_cases hx : key x ∈ seen
      · rw [if_pos hx]
        obtain ⟨r', hf, hm⟩ := ih seen hr' hseen
        exact ⟨r', by rw [List.find?_cons_of_neg _ (by simp [hxr]), hf], hm⟩
      · rw [if_neg hx]
        have hseen' : key r ∉ key x :: seen := by
          intro hc
          rcases List.mem_cons.mp hc with h1 | h2
          · exact hxr h1.symm
          · exact hseen h2
        obtain ⟨r', hf, hm⟩ := ih (key x :: seen) hr' hseen'
        exact ⟨r', by rw [List.find?_cons_of_neg _ (by simp [hxr]), hf],
          List.mem_cons_of_mem _ hm⟩

/-- The derived column is present after the assignment. -/
theorem withNormalizedCol_colIdx (df : DataFrame) (i : Nat) :
    ∃ j, colIdx (withNormalizedCol df i).columns "phone_number_normalized" = some j := by
  unfold withNormalizedCol assignCol
  cases hc : colIdx df.columns "phone_number_normalized" with
  | some j => exact ⟨j, by simp [hc]⟩
  | none => exact ⟨df.columns.length, by simp [colIdx_append_self hc]⟩

/-- When a `phone_number` column exists, the whole pipeline is: assign the
derived column, filter out `NaN` derived cells, keep-first deduplicate. -/
theorem processDf_eq_of_phone (df : DataFrame) (i j : Nat)
    (h : colIdx (normalize_csv_headers df).columns "phone_number" = some i)
    (hj : colIdx (withNormalizedCol (normalize_csv_headers df) i).columns
      "phone_number_normalized" = some j) :
    processDf df = { withNormalizedCol (normalize_csv_headers df) i with
      rows := dedupFirstAux (fun r => r.getD j none) []
        ((withNormalizedCol (normalize_csv_headers df) i).rows.filter
          (fun r => (r.getD j none).isSome)) } := by
  have hdrop : dropnaOn (withNormalizedCol (normalize_csv_headers df) i)
      "phone_number_normalized" =
      { withNormalizedCol (normalize_csv_headers df) i with
        rows := (withNormalizedCol (normalize_csv_headers df) i).rows.filter
          (fun r => (r.getD j none).isSome) } := by
    unfold dropnaOn; rw [hj]
  have hidx : colIdx (dropnaOn (withNormalizedCol (normalize_csv_headers df) i)
      "phone_number_normalized").columns "phone_number_normalized" = some j := by
    rw [hdrop]; exact hj
  have hdd : drop_duplicates (dropnaOn (withNormalizedCol (normalize_csv_headers df) i)
      "phone_number_normalized") "phone_number_normalized" =
      { dropnaOn (withNormalizedCol (normalize_csv_headers df) i)
          "phone_number_normalized" with
        rows := dedupFirstAux (fun r => r.getD j none) []
          (dropnaOn (withNormalizedCol (normalize_csv_headers df) i)
            "phone_number_normalized").rows } := by
    unfold drop_duplicates; rw [hidx]
  simp only [processDf, h, hidx, hdd, hdrop]
  simp only [hj]
  unfold drop_duplicates
  simp only [hj]

/-- C2: when the normalized headers contain a `phone_number` column, the
Cleaned Table has a `phone_number_normalized` column in which every
surviving record holds a present (non-`NaN`) value, no two surviving
records share a value, the surviving rows are a subsequence of the rows
with the derived column (hence keep the original relative order), and for
every valid row the first valid row with the same value survives. -/
theorem cleaned_table_dedup_spec (df : DataFrame) (i : Nat)
    (h : colIdx (normalize_csv_headers df).columns "phone_number" = some i) :
    ∃ j, colIdx (processDf df).columns "phone_number_normalized" = some j ∧
      (∀ r ∈ (processDf df).rows, (r.getD j none).isSome = true) ∧
      (processDf df).rows.Pairwise (fun a b => a.getD j none ≠ b.getD j none) ∧
      List.Sublist (processDf df).rows
        (withNormalizedCol (normalize_csv_headers df) i).rows ∧
      (∀ r ∈ (dropnaOn (withNormalizedCol (normalize_csv_headers df) i)
          "phone_number_normalized").rows,
        ∃ r', (dropnaOn (withNormalizedCol (normalize_csv_headers df) i)
            "phone_number_normalized").rows.find?
            (fun x => decide (x.getD j none = r.getD j none)) = some r' ∧
          r' ∈ (processDf df).rows) := by
  obtain ⟨j, hj⟩ := withNormalizedCol_colIdx (normalize_csv_headers df) i
  have hproc := processDf_eq_of_phone df i j h hj
  have hdrop : dropnaOn (withNormalizedCol (normalize_csv_headers df) i)
      "phone_number_normalized" =
      { withNormalizedCol (normalize_csv_headers df) i with
        rows := (withNormalizedCol (normalize_csv_headers df) i).rows.filter
          (fun r => (r.getD j none).isSome) } := by
    unfold dropnaOn; rw [hj]
  refine ⟨j, ?_, ?_, ?_, ?_, ?_⟩
  · rw [hproc]; exact hj
  · intro r hr
    rw [hproc] at hr
    have hrV := (dedupFirstAux_sublist _ _ _).subset hr
    exact (List.mem_filter.mp hrV).2
  · rw [hproc]
    exact dedupFirstAux_pairwise _ _ _
  · rw [hproc]
    exact List.Sublist.trans (dedupFirstAux_sublist _ _ _) (List.filter_sublist _)
  · intro r hr
    rw [hdrop] at hr
    obtain ⟨r', hf, hm⟩ :=
      dedupFirstAux_first_mem (fun x => x.getD j none) []
        ((withNormalizedCol (normalize_csv_headers df) i).rows.filter
          (fun x => (x.getD j none).isSome)) r hr (by simp)
    refine ⟨r', ?_, ?_⟩
    · rw [hdrop]; exact hf
    · rw [hproc]; exact hm

/-- Concrete table exercising C2: a `Phone` column with a formatted number,
the same number in plain form, and a too-short number. -/
def c2df : DataFrame :=
  ⟨["Phone"], [[some "(555) 123-4567"], [some "5551234567"], [some "555123"]]⟩

/-- Witness for C2 on `c2df`. -/
theorem cleaned_table_dedup_spec_witness :
    colIdx (normalize_csv_headers c2df).columns "phone_number" = some 0 ∧
    (∃ j, colIdx (processDf c2df).columns "phone_number_normalized" = some j ∧
      (∀ r ∈ (processDf c2df).rows, (r.getD j none).isSome = true) ∧
      (processDf c2df).rows.Pairwise (fun a b => a.getD j none ≠ b.getD j none) ∧
      List.Sublist (processDf c2df).rows
        (withNormalizedCol (normalize_csv_headers c2df) 0).rows ∧
      (∀ r ∈ (dropnaOn (withNormalizedCol (normalize_csv_headers c2df) 0)
          "phone_number_normalized").rows,
        ∃ r', (dropnaOn (withNormalizedCol (normalize_csv_headers c2df) 0)
            "phone_number_normalized").rows.find?
            (fun x => decide (x.getD j none = r.getD j none)) = some r' ∧
          r' ∈ (processDf c2df).rows)) :=
  ⟨by decide, cleaned_table_dedup_spec c2df 0 (by decide)⟩

/-- Input on which the pipeline edits a pre-existing cell: the upload already
carries a `phone_number_normalized` column, which the derived-column
assignment overwrites. -/
def c10df : DataFrame :=
  ⟨["phone_number", "phone_number_normalized"], [[some "5551234567", some "junk"]]⟩

/-- C10 counterexample: the surviving row of `c10df` has its original
`phone_number_normalized` cell rewritten from `"junk"` to the derived value,
so the pipeline does edit an existing cell value. -/
theorem pipeline_edits_preexisting_normalized_col :
    (processDf c10df).columns = c10df.columns ∧
    c10df.rows = [[some "5551234567", some "junk"]] ∧
    (processDf c10df).rows = [[some "5551234567", some "5551234567"]] := by
  refine ⟨?_, rfl, ?_⟩ <;> decide

/-- C10 amended: every surviving row is an input row either unchanged, or
with the derived `phone_number_normalized` cell appended, or — when the
input already had a `phone_number_normalized` column — with that one cell
overwritten; all other cells are unchanged. -/
theorem pipeline_frame_effect_amended (df : DataFrame) :
    ∀ r ∈ (processDf df).rows, ∃ r₀, r₀ ∈ df.rows ∧
      (r = r₀ ∨ ∃ c, r = r₀ ++ [c] ∨
        ∃ k, colIdx (normalize_csv_headers df).columns "phone_number_normalized" =
            some k ∧ r = r₀.set k c) := by
  intro r hr
  have hrows1 : (normalize_csv_headers df).rows = df.rows := rfl
  cases hpn : colIdx (normalize_csv_headers df).columns "phone_number" with
  | none =>
    cases hnn : colIdx (normalize_csv_headers df).columns "phone_number_normalized" with
    | none =>
      have hp : processDf df = normalize_csv_headers df := by
        simp only [processDf, hpn, hnn]
      rw [hp, hrows1] at hr
      exact ⟨r, hr, Or.inl rfl⟩
    | some j =>
      have hdd : drop_duplicates (normalize_csv_headers df) "phone_number_normalized" =
          { normalize_csv_headers df with
            rows := dedupFirstAux (fun x => x.getD j none) []
              (normalize_csv_headers df).rows } := by
        unfold drop_duplicates; rw [hnn]
      have hp : processDf df = { normalize_csv_headers df with
          rows := dedupFirstAux (fun x => x.getD j none) []
            (normalize_csv_headers df).rows } := by
        simp only [processDf, hpn, hnn, hdd]
      rw [hp] at hr
      have : r ∈ (normalize_csv_headers df).rows :=
        (dedupFirstAux_sublist _ _ _).subset hr
      rw [hrows1] at this
      exact ⟨r, this, Or.inl rfl⟩
  | some i =>
    obtain ⟨j, hj⟩ := withNormalizedCol_colIdx (normalize_csv_headers df) i
    rw [processDf_eq_of_phone df i j hpn hj] at hr
    have hrW : r ∈ (withNormalizedCol (normalize_csv_headers df) i).rows :=
      (List.mem_filter.mp ((dedupFirstAux_sublist _ _ _).subset hr)).1
    unfold withNormalizedCol assignCol at hrW
    cases hc : colIdx (normalize_csv_headers df).columns "phone_number_normalized" with
    | some k =>
      rw [hc] at hrW
      obtain ⟨r₀, hr0, hr0e⟩ := List.mem_map.mp hrW
      rw [hrows1] at hr0
      exact ⟨r₀, hr0, Or.inr ⟨normalize_phone_number (r₀.getD i none),
        Or.inr ⟨k, rfl, hr0e.symm⟩⟩⟩
    | none =>
      rw [hc] at hrW
      obtain ⟨r₀, hr0, hr0e⟩ := List.mem_map.mp hrW
      rw [hrows1] at hr0
      exact ⟨r₀, hr0, Or.inr ⟨normalize_phone_number (r₀.getD i none),
        Or.inl hr0e.symm⟩⟩

/-- Witness for the amended C10 on a table with no phone-like column. -/
theorem pipeline_frame_effect_amended_witness :
    [some "x"] ∈ (processDf ⟨["a"], [[some "x"]]⟩).rows ∧
    ∃ r₀, r₀ ∈ (⟨["a"], [[some "x"]]⟩ : DataFrame).rows ∧
      ([some "x"] = r₀ ∨ ∃ c, [some "x"] = r₀ ++ [c] ∨
        ∃ k, colIdx (normalize_csv_headers ⟨["a"], [[some "x"]]⟩).columns
            "phone_number_normalized" = some k ∧ [some "x"] = r₀.set k c) :=
  ⟨by decide, pipeline_frame_effect_amended ⟨["a"], [[some "x"]]⟩ [some "x"] (by decide)⟩

/-! ## Job wire format (`json.dumps` / `json.loads` of the job payload) -/

/-- The queued job payload (main.py lines 189-195): `job_id`, `filename`,
`csv_data`, `timestamp` strings and the non-negative row count. -/
structure JobData where
  job_id : String
  filename : String
  csv_data : String
  timestamp : String
  rows : Nat
deriving DecidableEq, Repr

/-- Lower-case hex digit, as Python's `'\\u%04x'` formatting emits. -/
def hexDig (k : Nat) : Char :=
  Char.ofNat (if k < 10 then 48 + k else 87 + k)

/-- Four-digit hex rendering of a number below 0x10000. -/
def hex4 (n : Nat) : List Char :=
  [hexDig (n / 4096 % 16), hexDig (n / 256 % 16), hexDig (n / 16 % 16), hexDig (n % 16)]

/-- Value of one hex digit (upper or lower case accepted, as `json.loads`
does). -/
def hexVal (c : Char) : Option Nat :=
  if 48 ≤ c.toNat ∧ c.toNat ≤ 57 then some (c.toNat - 48)
  else if 97 ≤ c.toNat ∧ c.toNat ≤ 102 then some (c.toNat - 87)
  else if 65 ≤ c.toNat ∧ c.toNat ≤ 70 then some (c.toNat - 55)
  else none

/-- Value of a four-digit hex escape. -/
def hex4Val (a b c d : Char) : Option Nat := do
  let x ← hexVal a
  let y ← hexVal b
  let z ← hexVal c
  let w ← hexVal d
  pure (x * 4096 + y * 256 + z * 16 + w)

/-- `json.dumps` escaping of one character with the default
`ensure_ascii=True`: the named escapes, printable ASCII verbatim, `\\uXXXX`
for everything else, with a UTF-16 surrogate pair above U+FFFF. -/
def escChar (c : Char) : List Char :=
  if c = '"' then ['\\', '"']
  else if c = '\\' then ['\\', '\\']
  else if c = '\n' then ['\\', 'n']
  else if c = '\r' then ['\\', 'r']
  else if c = '\t' then ['\\', 't']
  else if c.toNat = 8 then ['\\', 'b']
  else if c.toNat = 12 then ['\\', 'f']
  else if 32 ≤ c.toNat ∧ c.toNat ≤ 126 then [c]
  else if c.toNat < 65536 then '\\' :: 'u' :: hex4 c.toNat
  else
    ('\\' :: 'u' :: hex4 (55296 + (c.toNat - 65536) / 1024)) ++
      ('\\' :: 'u' :: hex4 (56320 + (c.toNat - 65536) % 1024))

/-- `json.dumps` escaping of a whole string body. -/
def escList : List Char → List Char
  | [] => []
  | c :: cs => escChar c ++ escList cs

/-- The named single-character escapes accepted by `json.loads`. -/
def unescChar (c : Char) : Option Char :=
  if c = '"' then some '"'
  else if c = '\\' then some '\\'
  else if c = '/' then some '/'
  else if c = 'b' then some '\x08'
  else if c = 'f' then some '\x0c'
  else if c = 'n' then some '\n'
  else if c = 'r' then some '\r'
  else if c = 't' then some '\t'
  else none


/-- Read a four-digit hex escape value and the remaining input. -/
def take4hex : List Char → Option (Nat × List Char)
  | a :: b :: c :: d :: rest => (hex4Val a b c d).map (fun n => (n, rest))
  | _ => none

/-- `json.loads` decoding of the body of a `\\uXXXX` escape (the input
starts after `\\u`): a non-surrogate code point stands alone; a high
surrogate must be followed by an escaped low surrogate and the pair is
recombined; a lone surrogate is rejected (the embedding's strings are
Unicode scalar sequences). -/
def unescU (rest2 : List Char) : Option (Char × List Char) :=
  match take4hex rest2 with
  | none => none
  | some (n, rest3) =>
    if 55296 ≤ n ∧ n < 56320 then
      match rest3 with
      | b1 :: u1 :: rest3b =>
        if b1 = '\\' ∧ u1 = 'u' then
          match take4hex rest3b with
          | none => none
          | some (m, rest4) =>
            if 56320 ≤ m ∧ m < 57344 then
              some (Char.ofNat (65536 + (n - 55296) * 1024 + (m - 56320)), rest4)
            else none
        else none
      | _ => none
    else if 56320 ≤ n ∧ n < 57344 then none
    else some (Char.ofNat n, rest3)

/-- `json.loads` decoding of one string-body character off the front of the
input: a verbatim character, a named escape, or a `\\uXXXX` escape. A
closing quote yields `none` (handled by the caller). -/
def unescStep : List Char → Option (Char × List Char)
  | [] => none
  | c :: rest =>
    if c = '"' then none
    else if c = '\\' then
      match rest with
      | [] => none
      | e :: rest2 =>
        if e = 'u' then unescU rest2
        else (unescChar e).map (fun c' => (c', rest2))
    else some (c, rest)

/-- Reading a hex escape consumes four characters. -/
theorem take4hex_length {l : List Char} {n : Nat} {r : List Char}
    (h : take4hex l = some (n, r)) : r.length + 4 = l.length := by
  match l with
  | [] => simp [take4hex] at h
  | [a] => simp [take4hex] at h
  | [a, b] => simp [take4hex] at h
  | [a, b, c] => simp [take4hex] at h
  | a :: b :: c :: d :: rest =>
    simp only [take4hex] at h
    cases hv : hex4Val a b c d with
    | none => rw [hv] at h; cases h
    | some k =>
      rw [hv] at h
      simp at h
      rw [← h.2]
      simp

/-- Decoding a hex escape never lengthens the remaining input. -/
theorem unescU_length {rest2 : List Char} {c' : Char} {r' : List Char}
    (h : unescU rest2 = some (c', r')) : r'.length ≤ rest2.length := by
  unfold unescU at h
  cases h4 : take4hex rest2 with
  | none => rw [h4] at h; cases h
  | some p =>
    obtain ⟨n, rest3⟩ := p
    rw [h4] at h
    try simp only [] at h
    have hl3 := take4hex_length h4
    by_cases hs1 : 55296 ≤ n ∧ n < 56320
    · rw [if_pos hs1] at h
      match rest3, hl3, h with
      | [], hl3, h => cases h
      | [b1], hl3, h => cases h
      | b1 :: u1 :: rest3b, hl3, h =>
        simp only [] at h
        by_cases hb : b1 = '\\' ∧ u1 = 'u'
        · rw [if_pos hb] at h
          cases h5 : take4hex rest3b with
          | none => rw [h5] at h; cases h
          | some q =>
            obtain ⟨m, rest4⟩ := q
            rw [h5] at h
            try simp only [] at h
            have hl4 := take4hex_length h5
            by_cases hs2 : 56320 ≤ m ∧ m < 57344
            · rw [if_pos hs2] at h
              injection h with h1
              have h2 := congrArg Prod.snd h1
              simp at h2
              subst h2
              simp at hl3
              omega
            · rw [if_neg hs2] at h; cases h
        · rw [if_neg hb] at h; cases h
    · rw [if_neg hs1] at h
      by_cases hs2 : 56320 ≤ n ∧ n < 57344
      · rw [if_pos hs2] at h; cases h
      · rw [if_neg hs2] at h
        injection h with h1
        have h2 := congrArg Prod.snd h1
        simp at h2
        subst h2
        omega

/-- Decoding one character consumes at least one character of input. -/
theorem unescStep_length {l : List Char} {c' : Char} {r' : List Char}
    (h : unescStep l = some (c', r')) : r'.length < l.length := by
  match l with
  | [] => simp [unescStep] at h
  | c :: rest =>
    simp only [unescStep] at h
    by_cases h1 : c = '"'
    · rw [if_pos h1] at h; cases h
    · rw [if_neg h1] at h
      by_cases h2 : c = '\\'
      · rw [if_pos h2] at h
        match rest, h with
        | [], h => cases h
        | e :: rest2, h =>
          simp only [] at h
          by_cases he : e = 'u'
          · rw [if_pos he] at h
            have := unescU_length h
            simp
            omega
          · rw [if_neg he] at h
            cases hc : unescChar e with
            | none => rw [hc] at h; cases h
            | some cc =>
              rw [hc] at h
              simp at h
              rw [← h.2]
              simp only [List.length_cons]
              omega
      · rw [if_neg h2] at h
        injection h with h1
        have h2' := congrArg Prod.snd h1
        simp at h2'
        subst h2'
        simp

/-- `json.loads` string-body parsing, after the opening quote: decode
characters with `unescStep` until the closing quote, returning the decoded
characters and the remaining input. -/
def parseStrBody (l : List Char) : Option (List Char × List Char) :=
  match l with
  | [] => none
  | c :: rest =>
    if c = '"' then some ([], rest)
    else
      match h : unescStep (c :: rest) with
      | none => none
      | some (c', rest') =>
        match parseStrBody rest' with
        | none => none
        | some (cs, r) => some (c' :: cs, r)
termination_by l.length
decreasing_by exact unescStep_length h
/-- Consume an expected literal from the front of the input. -/
def dropLit : List Char → List Char → Option (List Char)
  | [], s => some s
  | _ :: _, [] => none
  | c :: cs, d :: ds => if c = d then dropLit cs ds else none

/-- Decimal digit character, offset from `'0'`. -/
def digitChar48 (k : Nat) : Char := Char.ofNat (48 + k)

/-- Python decimal rendering of a non-negative int (`repr`). -/
def natDec (n : Nat) : List Char :=
  if h : n < 10 then [digitChar48 n]
  else natDec (n / 10) ++ [digitChar48 (n % 10)]
termination_by n
decreasing_by exact Nat.div_lt_self (by omega) (by omega)

/-- Value of a decimal digit run, as `json.loads` reads an integer. -/
def digitsVal (l : List Char) : Nat :=
  l.foldl (fun a c => a * 10 + (c.toNat - 48)) 0

/-- The serialized job payload: `json.dumps(job_data)` with the default
separators, key order as the dict literal in `ingest_csv` builds it. -/
def jobDumpsList (j : JobData) : List Char :=
  "\x7b\"job_id\": \"".data ++ escList j.job_id.data ++
    ('"' :: ", \"filename\": \"".data) ++ escList j.filename.data ++
    ('"' :: ", \"csv_data\": \"".data) ++ escList j.csv_data.data ++
    ('"' :: ", \"timestamp\": \"".data) ++ escList j.timestamp.data ++
    ('"' :: ", \"rows\": ".data) ++ natDec j.rows ++ ['\x7d']

/-- `json.dumps(job_data)` as a string. -/
def jobDumps (j : JobData) : String := ⟨jobDumpsList j⟩

/-- `json.loads` on the producer's wire format: parse the five fields in the
order the producer emits them. -/
def jobLoads (s : String) : Option JobData := do
  let l0 ← dropLit "\x7b\"job_id\": \"".data s.data
  let (v1, l1) ← parseStrBody l0
  let l1b ← dropLit ", \"filename\": \"".data l1
  let (v2, l2) ← parseStrBody l1b
  let l2b ← dropLit ", \"csv_data\": \"".data l2
  let (v3, l3) ← parseStrBody l2b
  let l3b ← dropLit ", \"timestamp\": \"".data l3
  let (v4, l4) ← parseStrBody l3b
  let l4b ← dropLit ", \"rows\": ".data l4
  let ds := l4b.takeWhile Char.isDigit
  if ds.isEmpty then none
  else
    match l4b.dropWhile Char.isDigit with
    | ['\x7d'] => some ⟨⟨v1⟩, ⟨v2⟩, ⟨v3⟩, ⟨v4⟩, digitsVal ds⟩
    | _ => none

/-! ## Job Queue (Redis list `lead_jobs`) -/

/-- `redis_client.lpush('lead_jobs', payload)`: push at the head. -/
def lpush (q : List String) (payload : String) : List String := payload :: q

/-- `redis_client.brpop('lead_jobs', timeout)`: pop from the tail; `none`
models the timeout return on an empty queue. -/
def brpop (q : List String) : Option (String × List String) :=
  match q.getLast? with
  | some s => some (s, q.dropLast)
  | none => none

/-- Hex digit rendering and reading are inverse below 16. -/
theorem hexVal_hexDig : ∀ k, k < 16 → hexVal (hexDig k) = some k := by decide

/-- Reading back a four-digit hex rendering. -/
theorem hex4Val_hex4 (n : Nat) (h : n < 65536) :
    hex4Val (hexDig (n / 4096 % 16)) (hexDig (n / 256 % 16)) (hexDig (n / 16 % 16))
      (hexDig (n % 16)) = some n := by
  have h1 := hexVal_hexDig (n / 4096 % 16) (by omega)
  have h2 := hexVal_hexDig (n / 256 % 16) (by omega)
  have h3 := hexVal_hexDig (n / 16 % 16) (by omega)
  have h4 := hexVal_hexDig (n % 16) (by omega)
  simp [hex4Val, h1, h2, h3, h4]
  omega

/-- Reading back a rendered hex escape body. -/
theorem take4hex_hex4 (n : Nat) (h : n < 65536) (X : List Char) :
    take4hex (hex4 n ++ X) = some (n, X) := by
  simp [hex4, List.cons_append, List.nil_append, take4hex, hex4Val_hex4 n h]


/-- Every escape chunk starts with a backslash, except a verbatim printable
character (which is then neither a quote nor a backslash). -/
theorem escChar_shape (c : Char) :
    (∃ t, escChar c = '\\' :: t) ∨ (escChar c = [c] ∧ ¬ c = '"' ∧ ¬ c = '\\') := by
  unfold escChar
  by_cases h1 : c = '"'
  · rw [if_pos h1]; exact Or.inl ⟨_, rfl⟩
  · rw [if_neg h1]
    by_cases h2 : c = '\\'
    · rw [if_pos h2]; exact Or.inl ⟨_, rfl⟩
    · rw [if_neg h2]
      by_cases h3 : c = '\n'
      · rw [if_pos h3]; exact Or.inl ⟨_, rfl⟩
      · rw [if_neg h3]
        by_cases h4 : c = '\r'
        · rw [if_pos h4]; exact Or.inl ⟨_, rfl⟩
        · rw [if_neg h4]
          by_cases h5 : c = '\t'
          · rw [if_pos h5]; exact Or.inl ⟨_, rfl⟩
          · rw [if_neg h5]
            by_cases h6 : c.toNat = 8
            · rw [if_pos h6]; exact Or.inl ⟨_, rfl⟩
            · rw [if_neg h6]
              by_cases h7 : c.toNat = 12
              · rw [if_pos h7]; exact Or.inl ⟨_, rfl⟩
              · rw [if_neg h7]
                by_cases h8 : 32 ≤ c.toNat ∧ c.toNat ≤ 126
                · rw [if_pos h8]; exact Or.inr ⟨rfl, h1, h2⟩
                · rw [if_neg h8]
                  by_cases h9 : c.toNat < 65536
                  · rw [if_pos h9]; exact Or.inl ⟨_, rfl⟩
                  · rw [if_neg h9]; exact Or.inl ⟨_, rfl⟩

/-- Decoding a `\\u` escape starts by reading its hex body. -/
theorem unescStep_u (rest2 : List Char) :
    unescStep ('\\' :: 'u' :: rest2) = unescU rest2 := rfl

/-- Decoding inverts escaping, one character at a time. -/
theorem unescStep_escChar (c : Char) (X : List Char) :
    unescStep (escChar c ++ X) = some (c, X) := by
  have hv : c.toNat < 55296 ∨ (57343 < c.toNat ∧ c.toNat < 1114112) := c.valid
  by_cases h1 : c = '"'
  · subst h1; rfl
  · by_cases h2 : c = '\\'
    · subst h2; rfl
    · by_cases h3 : c = '\n'
      · subst h3; rfl
      · by_cases h4 : c = '\r'
        · subst h4; rfl
        · by_cases h5 : c = '\t'
          · subst h5; rfl
          · by_cases h6 : c.toNat = 8
            · have hc : c = '\x08' := by
                have h := Char.ofNat_toNat c
                rw [h6] at h
                exact h.symm
              subst hc
              rfl
            · by_cases h7 : c.toNat = 12
              · have hc : c = '\x0c' := by
                  have h := Char.ofNat_toNat c
                  rw [h7] at h
                  exact h.symm
                subst hc
                rfl
              · have hesc : escChar c =
                    (if 32 ≤ c.toNat ∧ c.toNat ≤ 126 then [c]
                    else if c.toNat < 65536 then '\\' :: 'u' :: hex4 c.toNat
                    else ('\\' :: 'u' :: hex4 (55296 + (c.toNat - 65536) / 1024)) ++
                      ('\\' :: 'u' :: hex4 (56320 + (c.toNat - 65536) % 1024))) := by
                  unfold escChar
                  rw [if_neg h1, if_neg h2, if_neg h3, if_neg h4, if_neg h5,
                    if_neg h6, if_neg h7]
                by_cases h8 : 32 ≤ c.toNat ∧ c.toNat ≤ 126
                · rw [hesc, if_pos h8]
                  show unescStep (c :: X) = some (c, X)
                  simp only [unescStep]
                  rw [if_neg h1, if_neg h2]
                · by_cases h9 : c.toNat < 65536
                  · rw [hesc, if_neg h8, if_pos h9]
                    have hns1 : ¬ (55296 ≤ c.toNat ∧ c.toNat < 56320) := by omega
                    have hns2 : ¬ (56320 ≤ c.toNat ∧ c.toNat < 57344) := by omega
                    rw [show ('\\' :: 'u' :: hex4 c.toNat) ++ X =
                      '\\' :: 'u' :: (hex4 c.toNat ++ X) from rfl]
                    rw [unescStep_u, unescU, take4hex_hex4 _ h9]
                    try simp only []
                    rw [if_neg hns1, if_neg hns2, Char.ofNat_toNat]
                  · rw [hesc, if_neg h8, if_neg h9]
                    have hhi : 55296 + (c.toNat - 65536) / 1024 < 65536 := by omega
                    have hlo : 56320 + (c.toNat - 65536) % 1024 < 65536 := by omega
                    have hs1 : 55296 ≤ 55296 + (c.toNat - 65536) / 1024 ∧
                        55296 + (c.toNat - 65536) / 1024 < 56320 := by omega
                    have hs2 : 56320 ≤ 56320 + (c.toNat - 65536) % 1024 ∧
                        56320 + (c.toNat - 65536) % 1024 < 57344 := by omega
                    rw [show (('\\' :: 'u' :: hex4 (55296 + (c.toNat - 65536) / 1024)) ++
                        ('\\' :: 'u' :: hex4 (56320 + (c.toNat - 65536) % 1024))) ++ X =
                        '\\' :: 'u' :: (hex4 (55296 + (c.toNat - 65536) / 1024) ++
                          ('\\' :: 'u' :: (hex4 (56320 + (c.toNat - 65536) % 1024) ++ X))) from by
                      simp]
                    rw [unescStep_u, unescU, take4hex_hex4 _ hhi]
                    try simp only []
                    rw [if_pos hs1]
                    try simp only []
                    rw [if_pos (show True ∧ True from ⟨trivial, trivial⟩)]
                    rw [take4hex_hex4 _ hlo]
                    try simp only []
                    rw [if_pos hs2]
                    rw [show 65536 + (55296 + (c.toNat - 65536) / 1024 - 55296) * 1024 +
                      (56320 + (c.toNat - 65536) % 1024 - 56320) = c.toNat from by omega,
                      Char.ofNat_toNat]

/-- Parsing one escaped character off the front decodes it and continues. -/
theorem parse_escChar (c : Char) (X : List Char) :
    parseStrBody (escChar c ++ X) = (parseStrBody X).map (fun p => (c :: p.1, p.2)) := by
  have h0 : unescStep (escChar c ++ X) = some (c, X) := unescStep_escChar c X
  rcases escChar_shape c with ⟨t, ht⟩ | ⟨ht, hc1, hc2⟩
  · rw [ht] at h0 ⊢
    rw [List.cons_append] at h0 ⊢
    rw [parseStrBody.eq_def]
    simp only []
    rw [if_neg (by decide), h0]
    simp only []
    cases hX : parseStrBody X with
    | none => rfl
    | some p => obtain ⟨x, y⟩ := p; rfl
  · rw [ht] at h0 ⊢
    rw [List.singleton_append] at h0 ⊢
    rw [parseStrBody.eq_def]
    simp only []
    rw [if_neg hc1, h0]
    simp only []
    cases hX : parseStrBody X with
    | none => rfl
    | some p => obtain ⟨x, y⟩ := p; rfl

/-- Parsing back an escaped string body up to the closing quote. -/
theorem parseStrBody_escList (cs : List Char) :
    ∀ rest, parseStrBody (escList cs ++ '"' :: rest) = some (cs, rest) := by
  induction cs with
  | nil =>
    intro rest
    show parseStrBody ('"' :: rest) = some ([], rest)
    rw [parseStrBody.eq_def]
    simp
  | cons c cs ih =>
    intro rest
    rw [escList, List.append_assoc, parse_escChar, ih rest]
    rfl

/-- Consuming a literal prefix leaves exactly the rest. -/
theorem dropLit_append (lit rest : List Char) : dropLit lit (lit ++ rest) = some rest := by
  induction lit with
  | nil => rfl
  | cons c cs ih => simp [dropLit, ih]

/-- One matching character of an expected literal is consumed. -/
theorem dropLit_cons (c : Char) (cs ds : List Char) :
    dropLit (c :: cs) (c :: ds) = dropLit cs ds := by
  simp [dropLit]

/-- An exhausted literal leaves the input as-is. -/
theorem dropLit_nil (s : List Char) : dropLit [] s = some s := rfl

/-- Decimal digit characters are digits. -/
theorem digitChar48_isDigit : ∀ k, k < 10 → (digitChar48 k).isDigit = true := by decide

/-- Code point of a decimal digit character. -/
theorem digitChar48_toNat : ∀ k, k < 10 → (digitChar48 k).toNat = 48 + k := by decide

/-- The decimal rendering consists of digits. -/
theorem natDec_digits (n : Nat) : ∀ c ∈ natDec n, c.isDigit = true := by
  induction n using Nat.strong_induction_on with
  | _ n ih =>
    rw [natDec]
    by_cases h : n < 10
    · rw [dif_pos h]
      intro c hc
      simp at hc
      subst hc
      exact digitChar48_isDigit n h
    · rw [dif_neg h]
      intro c hc
      rcases List.mem_append.mp hc with hm | hm
      · exact ih (n / 10) (Nat.div_lt_self (by omega) (by omega)) c hm
      · simp at hm
        subst hm
        exact digitChar48_isDigit _ (Nat.mod_lt _ (by omega))

/-- The decimal rendering is never empty. -/
theorem natDec_ne_nil (n : Nat) : natDec n ≠ [] := by
  rw [natDec]
  by_cases h : n < 10
  · rw [dif_pos h]; simp
  · rw [dif_neg h]; simp

/-- Reading back the decimal rendering. -/
theorem digitsVal_natDec (n : Nat) : digitsVal (natDec n) = n := by
  induction n using Nat.strong_induction_on with
  | _ n ih =>
    rw [natDec]
    by_cases h : n < 10
    · rw [dif_pos h]
      show digitsVal [digitChar48 n] = n
      simp [digitsVal]
      rw [digitChar48_toNat n h]
      omega
    · rw [dif_neg h]
      show digitsVal (natDec (n / 10) ++ [digitChar48 (n % 10)]) = n
      rw [digitsVal, List.foldl_append]
      simp only [List.foldl_cons, List.foldl_nil]
      have hrec := ih (n / 10) (Nat.div_lt_self (by omega) (by omega))
      rw [digitsVal] at hrec
      rw [hrec, digitChar48_toNat _ (Nat.mod_lt _ (by omega))]
      omega

/-- A digit run followed by a non-digit splits there. -/
theorem digits_span (xs : List Char) (hxs : ∀ c ∈ xs, c.isDigit = true)
    {y : Char} (hy : y.isDigit = false) (r : List Char) :
    ((xs ++ y :: r).takeWhile Char.isDigit = xs) ∧
    ((xs ++ y :: r).dropWhile Char.isDigit = y :: r) := by
  induction xs with
  | nil => simp [List.takeWhile_cons, List.dropWhile_cons, hy]
  | cons a t ih =>
    have ha := hxs a (List.mem_cons_self _ _)
    have ht : ∀ c ∈ t, c.isDigit = true := fun c hc => hxs c (List.mem_cons_of_mem _ hc)
    obtain ⟨ih1, ih2⟩ := ih ht
    constructor
    · simp [List.takeWhile_cons, ha, ih1]
    · simp [List.dropWhile_cons, ha, ih2]

/-- C6: pushing a serialized Job onto the empty queue and popping it returns
the identical payload string, and deserializing gives back exactly the
enqueued Job: `job_id`, `filename`, `csv_data`, `timestamp` and `rows` all
round-trip unchanged through the FIFO queue. -/
theorem job_queue_roundtrip (j : JobData) :
    brpop (lpush [] (jobDumps j)) = some (jobDumps j, []) ∧
    jobLoads (jobDumps j) = some j := by
  constructor
  · rfl
  · obtain ⟨v1, v2, v3, v4, n⟩ := j
    have hspan := digits_span (natDec n) (natDec_digits n)
      (show ('\x7d').isDigit = false from rfl) []
    have hne : (natDec n).isEmpty = false := by
      cases hd : natDec n with
      | nil => exact absurd hd (natDec_ne_nil n)
      | cons a t => rfl
    show jobLoads ⟨jobDumpsList ⟨v1, v2, v3, v4, n⟩⟩ = some ⟨v1, v2, v3, v4, n⟩
    simp only [jobLoads, jobDumpsList, List.append_assoc, List.cons_append,
      List.nil_append, dropLit_cons, dropLit_nil, parseStrBody_escList,
      Option.bind_eq_bind, Option.some_bind, hspan.1, hspan.2, hne,
      Bool.false_eq_true, if_false, digitsVal_natDec]

/-! ## Ingestion entrypoint (`ingest_csv`, main.py lines 123-214) -/

/-- Double internal quotes for a quoted CSV field. -/
def csvDouble : List Char → List Char
  | [] => []
  | c :: t => if c = '"' then '"' :: '"' :: csvDouble t else c :: csvDouble t

/-- Minimal CSV quoting as `df.to_csv` writes a field. -/
def csvQuote (s : String) : String :=
  if s.data.any (fun c => c = ',' ∨ c = '"' ∨ c = '\n' ∨ c = '\r') then
    ⟨'"' :: (csvDouble s.data ++ ['"'])⟩
  else s

/-- A `NaN` cell is written as an empty field. -/
def cellCsv : Cell → String
  | none => ""
  | some s => csvQuote s

/-- `df.to_csv(index=False)`: header line then one line per row. -/
def dfToCsv (df : DataFrame) : String :=
  String.intercalate "," (df.columns.map csvQuote) ++ "\n" ++
    String.join (df.rows.map (fun r =>
      String.intercalate "," ((List.range df.columns.length).map
        (fun k => cellCsv (r.getD k none))) ++ "\n"))

/-- The reply of the ingestion endpoint: a success body or an HTTP error
status raised via `HTTPException`. -/
inductive IngestReply where
  | ok (rows_processed : Nat) (job_id : String)
  | httpError (statusCode : Nat)
deriving DecidableEq, Repr

/-- What one request to `POST /ingest/csv` does: the reply to the caller and
the payloads pushed onto the `lead_jobs` queue. -/
structure IngestEffect where
  reply : IngestReply
  enqueued : List String
deriving DecidableEq, Repr

/-- The environment and request data of one ingestion call:
whether the module-level Redis client exists (`redis_client is not None`,
i.e. the startup connection succeeded), whether the store is reachable when
`lpush` runs, the uploaded filename, the outcome of decoding and
`pd.read_csv` on the body (`none` models a raised decode/parse error), and
the two `datetime.now()` renderings used for the job id and timestamp. -/
structure IngestInput where
  redisAvailable : Bool
  storeReachable : Bool
  filename : String
  parsed : Option DataFrame
  nowCompact : String
  nowIso : String

/-- pandas `DataFrame.empty`: true when either axis has length 0. -/
def dfEmpty (df : DataFrame) : Bool := df.rows.isEmpty || df.columns.isEmpty

/-- `ingest_csv`: reject when the Redis client is absent (503) or the
filename does not end in `.csv` (400); inside the `try` block a parse
failure, an empty table, or no rows surviving `processDf` raise — and the
blanket `except Exception` turns every exception raised inside the `try`,
including the endpoint's own `HTTPException(400)`s, into the generic 500 —
then serialize, build the job payload and push it; a failing push raises
and is likewise caught as a 500. Nothing is enqueued on any error path. -/
def ingest_csv (inp : IngestInput) : IngestEffect :=
  if inp.redisAvailable = false then { reply := .httpError 503, enqueued := [] }
  else if (".csv".data.isSuffixOf (pyLower inp.filename).data) = false then
    { reply := .httpError 400, enqueued := [] }
  else
    match inp.parsed with
    | none => { reply := .httpError 500, enqueued := [] }
    | some df =>
      if dfEmpty df then { reply := .httpError 500, enqueued := [] }
      else
        let cleaned := processDf df
        if dfEmpty cleaned then { reply := .httpError 500, enqueued := [] }
        else if inp.storeReachable then
          let jid := "csv_job_" ++ inp.nowCompact
          let payload := jobDumps { job_id := jid,
                                    filename := inp.filename,
                                    csv_data := dfToCsv cleaned,
                                    timestamp := inp.nowIso,
                                    rows := cleaned.rows.length }
          { reply := .ok cleaned.rows.length jid, enqueued := [payload] }
        else { reply := .httpError 500, enqueued := [] }

/-- An upload that parses to an empty table, with the queue healthy. -/
def c3input : IngestInput :=
  { redisAvailable := true, storeReachable := true, filename := "leads.csv",
    parsed := some ⟨["phone_number"], []⟩, nowCompact := "20240101_000000",
    nowIso := "2024-01-01T00:00:00" }

/-- C3: on an empty-table upload the endpoint enqueues nothing, but replies
500, not a 4xx: the `HTTPException(400, "CSV file is empty")` raised inside
the `try` block is swallowed by the blanket `except Exception` and replaced
with the generic 500. -/
theorem ingest_empty_upload_500_no_enqueue :
    ingest_csv c3input = { reply := .httpError 500, enqueued := [] } ∧
    IngestReply.httpError 500 ≠ IngestReply.httpError 400 := by decide

/-- A valid one-row upload with the Redis client present but the store
unreachable at push time. -/
def c8input : IngestInput :=
  { redisAvailable := true, storeReachable := false, filename := "leads.csv",
    parsed := some ⟨["phone_number"], [[some "4805551234"]]⟩,
    nowCompact := "20240101_000000", nowIso := "2024-01-01T00:00:00" }

/-- C8 counterexample: with the store unreachable at enqueue time the
endpoint replies with the generic 500, not the 503 service-unavailable the
claim requires (the raised connection error is caught by the blanket
`except Exception`). -/
theorem ingest_push_failure_not_503 :
    ingest_csv c8input = { reply := .httpError 500, enqueued := [] } ∧
    (ingest_csv c8input).reply ≠ IngestReply.httpError 503 := by decide

/-- C8 amended: a missing Redis client (startup connection failed) yields
503 with nothing enqueued; whenever the store is unreachable at push time
the endpoint enqueues nothing and surfaces some HTTP error — never a silent
drop or a fabricated success — with the push failure itself reported as the
generic 500. -/
theorem ingest_unavailable_amended (inp : IngestInput) :
    (inp.redisAvailable = false →
      ingest_csv inp = { reply := .httpError 503, enqueued := [] }) ∧
    (inp.storeReachable = false → (ingest_csv inp).enqueued = [] ∧
      ∃ code, (ingest_csv inp).reply = .httpError code) := by
  constructor
  · intro h
    unfold ingest_csv
    rw [if_pos h]
  · intro h
    unfold ingest_csv
    repeat' split
    all_goals first
      | exact ⟨rfl, 503, rfl⟩
      | exact ⟨rfl, 400, rfl⟩
      | exact ⟨rfl, 500, rfl⟩
      | simp_all

/-- An ingestion call with no Redis client and the store unreachable. -/
def c8downInput : IngestInput :=
  { redisAvailable := false, storeReachable := false, filename := "x.csv",
    parsed := none, nowCompact := "", nowIso := "" }

/-- Witness for the amended C8 with both failure modes at a concrete input. -/
theorem ingest_unavailable_amended_witness :
    (ingest_csv c8downInput = { reply := .httpError 503, enqueued := [] }) ∧
    ((ingest_csv c8downInput).enqueued = [] ∧
      ∃ code, (ingest_csv c8downInput).reply = IngestReply.httpError code) :=
  ⟨(ingest_unavailable_amended c8downInput).1 rfl,
    (ingest_unavailable_amended c8downInput).2 rfl⟩

/-! ## Export Mapper (`map_to_vicidial_format`, worker.py lines 68-111) -/

/-- One VICIdial export record. `list_id` keeps pandas typing: `none` is a
`NaN` cell (written as an empty field by `to_csv`); every other field is a
string after the `astype(str).str.strip()` cleanup loop. -/
structure ViciRow where
  list_id : Option Int
  phone_number : String
  first_name : String
  last_name : String
  address1 : String
  city : String
  state : String
  postal_code : String
deriving DecidableEq, Repr

/-- pandas `astype(str)` on an object cell: `str(nan)` is `"nan"`. -/
def pyCellStr : Cell → String
  | none => "nan"
  | some s => s

/-- The six columns read through `df.get(name, '').fillna('')`: when `name`
is missing, `df.get` returns the default `''` (a Python `str`) and the
`.fillna` call raises `AttributeError`. -/
def viciSourceCols : List String :=
  ["first_name", "last_name", "address1", "city", "state", "postal_code"]

/-- The phone-column fallback chain of the mapper: `phone_number_normalized`,
then `phone_number`, then the first of `phone`, `telephone`, `mobile`,
`cell`; `none` means the `for ... else` branch assigns the scalar `''`. -/
def phoneSourceIdx (df : DataFrame) : Option Nat :=
  (colIdx df.columns "phone_number_normalized") <|>
    (colIdx df.columns "phone_number") <|>
      (colIdx df.columns "phone") <|>
        (colIdx df.columns "telephone") <|>
          (colIdx df.columns "mobile") <|> (colIdx df.columns "cell")

/-- The phone series assigned to `vici_df['phone_number']`. In the scalar
`''` fallback the column is created on the still-empty frame and is refilled
with `NaN` when the first real series assignment adopts the n-row index
(pandas `_ensure_valid_index`), hence `replicate n none`. -/
def viciPhoneCells (df : DataFrame) : List Cell :=
  match phoneSourceIdx df with
  | some i => df.rows.map (fun r => r.getD i none)
  | none => List.replicate df.rows.length none

/-- `df.get(name, '').fillna('')` for a present column: `NaN` becomes `''`. -/
def viciFieldCells (df : DataFrame) (name : String) : List Cell :=
  match colIdx df.columns name with
  | some i => df.rows.map (fun r => some ((r.getD i none).getD ""))
  | none => []

/-- The mapper's frame before the final phone filter, one record per input
row. `list_id := none` models the pandas behaviour of the source:
`vici_df['list_id'] = list_id` assigns a scalar to the still-empty frame,
creating a zero-row column; the first length-n series assignment makes
pandas adopt that series' index and refill the existing `list_id` column
with `NaN` (`_ensure_valid_index`), and the cleanup loop skips `list_id`,
so every row keeps `NaN` there. All other fields go through
`astype(str).str.strip()`. -/
def viciRowsAll (df : DataFrame) : List ViciRow :=
  (List.range df.rows.length).map (fun k =>
    { list_id := none,
      phone_number := pyStrip (pyCellStr ((viciPhoneCells df).getD k none)),
      first_name := pyStrip (((viciFieldCells df "first_name").getD k (some "")).getD ""),
      last_name := pyStrip (((viciFieldCells df "last_name").getD k (some "")).getD ""),
      address1 := pyStrip (((viciFieldCells df "address1").getD k (some "")).getD ""),
      city := pyStrip (((viciFieldCells df "city").getD k (some "")).getD ""),
      state := pyStrip (((viciFieldCells df "state").getD k (some "")).getD ""),
      postal_code := pyStrip (((viciFieldCells df "postal_code").getD k (some "")).getD "") })

/-- `map_to_vicidial_format`: build the VICIdial frame and drop rows whose
`phone_number` is the empty string (`.str.len() > 0`). When any of the six
name/address columns is absent the call raises `AttributeError` (the
`.fillna('')` on the string default), reported as `Except.error`. -/
def map_to_vicidial_format (df : DataFrame) (list_id : Int) :
    Except String (List ViciRow) :=
  if viciSourceCols.all (fun n => (colIdx df.columns n).isSome) then
    Except.ok ((viciRowsAll df).filter (fun r => 0 < r.phone_number.length))
  else Except.error "AttributeError: str object has no attribute fillna"

/-- C4: whenever the Export Mapper returns records, every emitted record has
a non-empty `phone_number`, there are no more records than input rows, and
the records are a subsequence of the per-row mapped frame, preserving input
row order. -/
theorem export_mapper_spec (df : DataFrame) (lid : Int) (out : List ViciRow)
    (h : map_to_vicidial_format df lid = Except.ok out) :
    (∀ r ∈ out, r.phone_number ≠ "") ∧
    out.length ≤ df.rows.length ∧
    List.Sublist out (viciRowsAll df) := by
  unfold map_to_vicidial_format at h
  by_cases hc : viciSourceCols.all (fun n => (colIdx df.columns n).isSome)
  · rw [if_pos hc] at h
    injection h with h
    subst h
    refine ⟨?_, ?_, List.filter_sublist _⟩
    · intro r hr
      have hlen := (List.mem_filter.mp hr).2
      intro he
      rw [he] at hlen
      simp at hlen
    · calc ((viciRowsAll df).filter (fun r => 0 < r.phone_number.length)).length
          ≤ (viciRowsAll df).length := List.length_filter_le _ _
        _ = df.rows.length := by simp [viciRowsAll]
  · rw [if_neg hc] at h
    cases h

/-- A two-row table with all export source columns; the second row has an
empty phone value and is filtered out. -/
def c4df : DataFrame :=
  ⟨["phone_number_normalized", "first_name", "last_name", "address1", "city",
    "state", "postal_code"],
   [[some "5551234567", some " John ", some "Doe", some "1 Main St",
     some "Tempe", some "AZ", some "85281"],
    [some "", some "A", some "B", some "C", some "D", some "E", some "F"]]⟩

/-- The record emitted for the first row of `c4df`. -/
def c4out : List ViciRow :=
  [{ list_id := none, phone_number := "5551234567", first_name := "John",
     last_name := "Doe", address1 := "1 Main St", city := "Tempe",
     state := "AZ", postal_code := "85281" }]

/-- Witness for C4 on `c4df`. -/
theorem export_mapper_spec_witness :
    map_to_vicidial_format c4df 999 = Except.ok c4out ∧
    ((∀ r ∈ c4out, r.phone_number ≠ "") ∧
     c4out.length ≤ c4df.rows.length ∧
     List.Sublist c4out (viciRowsAll c4df)) :=
  ⟨by rfl, export_mapper_spec c4df 999 c4out (by rfl)⟩

/-- A one-row table with every export source column present and a valid
normalized phone. -/
def c5df : DataFrame :=
  ⟨["phone_number_normalized", "first_name", "last_name", "address1", "city",
    "state", "postal_code"],
   [[some "5551234567", some "John", some "Doe", some "1 Main St",
     some "Tempe", some "AZ", some "85281"]]⟩

/-- The record the mapper actually emits for `c5df`. -/
def c5row : ViciRow :=
  { list_id := none, phone_number := "5551234567", first_name := "John",
    last_name := "Doe", address1 := "1 Main St", city := "Tempe",
    state := "AZ", postal_code := "85281" }

/-- C5: evaluating the mapper at a full-column table with the supplied
`list_id = 999` emits a record whose `list_id` is `NaN`, not 999: the scalar
assigned to the empty frame is lost when pandas adopts the first series'
index and refills the column with `NaN`. -/
theorem export_mapper_loses_list_id :
    map_to_vicidial_format c5df 999 = Except.ok [c5row] ∧
    c5row.list_id = none ∧ c5row.list_id ≠ some 999 :=
  ⟨by rfl, by decide⟩

/-! ## Worker Loop (`VICIdialWorker`, worker.py lines 36-191) -/

/-- `max_retries` of `connect_redis`. -/
def max_retries : Nat := 5

/-- `retry_delay` (seconds) of `connect_redis`. -/
def retry_delay : Nat := 5

/-- The `for attempt in range(max_retries)` loop of `connect_redis`, given
the outcome of each connection attempt: success returns; failure sleeps and
retries unless this was the last attempt, which raises (`false`). -/
def connectLoop (tries : List Bool) : Nat → Nat → Bool
  | 0, _ => false
  | rem + 1, attempt =>
    if tries.getD attempt false then true
    else if rem = 0 then false
    else connectLoop tries rem (attempt + 1)

/-- `connect_redis`: up to `max_retries` attempts; `false` models the final
`raise Exception("Failed to connect to Redis after all retries")`. -/
def connect_redis (tries : List Bool) : Bool := connectLoop tries max_retries 0

/-- One iteration's outcome of `brpop` and its handling in `run`. -/
inductive PollEvent where
  /-- `brpop` returned a job payload; it is processed, and success or
  failure is only logged (a failed job is dropped, the loop continues). -/
  | job (payload : String)
  /-- `brpop` timed out (`None`): nothing to do. -/
  | timeout
  /-- `brpop` raised `redis.ConnectionError`: `run` retries `connect_redis`
  (with these attempt outcomes) inside a `try`; a reconnect failure is
  caught, sleeps 10 s, and the loop continues either way. -/
  | connError (reconnectTries : List Bool)
  /-- `KeyboardInterrupt`: the external shutdown signal, breaks the loop. -/
  | interrupt
  /-- Any other exception: logged, sleep 5 s, the loop continues. -/
  | unexpected
deriving DecidableEq, Repr

/-- What a finite prefix of the worker loop did: the payloads taken off the
queue (in order) and whether the loop exited. -/
structure RunOutcome where
  handled : List String
  stoppedByInterrupt : Bool
deriving DecidableEq, Repr

/-- The `while True` loop of `VICIdialWorker.run` over a trace of poll
outcomes. -/
def workerRun : List PollEvent → RunOutcome
  | [] => { handled := [], stoppedByInterrupt := false }
  | ev :: rest =>
    match ev with
    | .interrupt => { handled := [], stoppedByInterrupt := true }
    | .job p =>
      let o := workerRun rest
      { o with handled := p :: o.handled }
    | .timeout => workerRun rest
    | .connError _ => workerRun rest
    | .unexpected => workerRun rest

/-- The connect loop succeeds exactly when one of its remaining attempts
succeeds. -/
theorem connectLoop_true_iff (tries : List Bool) :
    ∀ rem attempt, connectLoop tries rem attempt = true ↔
      ∃ k, k < rem ∧ tries.getD (attempt + k) false = true := by
  intro rem
  induction rem with
  | zero => intro attempt; simp [connectLoop]
  | succ m ih =>
    intro attempt
    simp only [connectLoop]
    by_cases ht : tries.getD attempt false = true
    · rw [if_pos ht]
      constructor
      · intro _
        exact ⟨0, by omega, by simpa using ht⟩
      · intro _
        rfl
    · rw [if_neg ht]
      by_cases hm : m = 0
      · subst hm
        rw [if_pos rfl]
        constructor
        · intro h
          cases h
        · rintro ⟨k, hk, hv⟩
          have hk0 : k = 0 := by omega
          subst hk0
          rw [Nat.add_zero] at hv
          exact absurd hv ht
      · rw [if_neg hm]
        rw [ih (attempt + 1)]
        constructor
        · rintro ⟨k, hk, hv⟩
          refine ⟨k + 1, by omega, ?_⟩
          rw [show attempt + (k + 1) = attempt + 1 + k from by omega]
          exact hv
        · rintro ⟨k, hk, hv⟩
          match k, hk, hv with
          | 0, hk, hv => rw [Nat.add_zero] at hv; exact absurd hv ht
          | k + 1, hk, hv =>
            refine ⟨k, by omega, ?_⟩
            rw [show attempt + 1 + k = attempt + (k + 1) from by omega]
            exact hv

/-- C7: the worker loop stops exactly on an external interrupt — polling
errors, reconnection outcomes (successful or not), failed jobs and
unexpected exceptions all leave it running through the whole trace — and
the startup connection succeeds exactly when one of its `max_retries` (5)
attempts succeeds, so exhausting that budget is fatal only at startup,
while the in-loop reconnection path never terminates the loop whatever its
attempts return. -/
theorem worker_loop_spec (tr : List PollEvent) (tries : List Bool) :
    ((workerRun tr).stoppedByInterrupt = true ↔ PollEvent.interrupt ∈ tr) ∧
    (PollEvent.interrupt ∉ tr → (workerRun tr).stoppedByInterrupt = false) ∧
    (connect_redis tries = true ↔
      ∃ k, k < max_retries ∧ tries.getD k false = true) := by
  have hiff : (workerRun tr).stoppedByInterrupt = true ↔ PollEvent.interrupt ∈ tr := by
    induction tr with
    | nil => simp [workerRun]
    | cons ev rest ih => cases ev <;> simp [workerRun, ih]
  refine ⟨hiff, ?_, ?_⟩
  · intro h
    cases hb : (workerRun tr).stoppedByInterrupt with
    | false => rfl
    | true => exact absurd (hiff.mp hb) h
  · rw [connect_redis, connectLoop_true_iff tries max_retries 0]
    constructor
    · rintro ⟨k, hk, hv⟩
      exact ⟨k, hk, by simpa using hv⟩
    · rintro ⟨k, hk, hv⟩
      exact ⟨k, hk, by simpa using hv⟩

/-- A trace with a handled job, a timeout, a failed reconnection cycle and
an unexpected error, but no interrupt. -/
def c7trace : List PollEvent :=
  [.job "a", .timeout, .connError [false, false, false, false, false], .unexpected]

/-- Witness for C7 on `c7trace` and a second-attempt connection success. -/
theorem worker_loop_spec_witness :
    (((workerRun c7trace).stoppedByInterrupt = true ↔ PollEvent.interrupt ∈ c7trace) ∧
     (PollEvent.interrupt ∉ c7trace → (workerRun c7trace).stoppedByInterrupt = false) ∧
     (connect_redis [false, true] = true ↔
       ∃ k, k < max_retries ∧ [false, true].getD k false = true)) :=
  worker_loop_spec c7trace [false, true]
